import Mathlib

/-!
Verification development for the my_mcp_servers repository (four Python tool
servers: research, document, data, web).  Each server's logic relevant to the
stated properties is shallowly embedded below: Python dicts become association
lists with in-place update semantics, Python strings become Lean strings
(operated on as lists of characters where convenient), exceptions become
Option/Except results, and the network / filesystem / third-party libraries
(arXiv client, requests, PyPDF2, BeautifulSoup, csv/json serialization) are
abstracted as explicit oracle parameters, since the repository treats them as
opaque transports.  Numbers handled by the statistics tool are modelled as
rationals; the concrete inputs appearing in the claims are exactly
representable, so no floating-point rounding is involved.
-/

/-! ## Python dict model

A Python dict is modelled as an association list with string keys.  Assignment
(`d[k] = v`) updates the value in place when the key exists (preserving
insertion order) and appends otherwise, matching CPython semantics. -/

/-- Python dict assignment `d[k] = v`. -/
def dictSet {α : Type} (d : List (String × α)) (k : String) (v : α) : List (String × α) :=
  match d with
  | [] => [(k, v)]
  | (k0, v0) :: rest => if k0 = k then (k0, v) :: rest else (k0, v0) :: dictSet rest k v

/-- Python dict read `d.get(k)` / `d[k]` (first matching key). -/
def dictGet {α : Type} (d : List (String × α)) (k : String) : Option α :=
  match d with
  | [] => none
  | (k0, v) :: rest => if k0 = k then some v else dictGet rest k

/-- Python `d.keys()` in insertion order. -/
def dictKeys {α : Type} (d : List (String × α)) : List String :=
  d.map Prod.fst

/-- Build a dict by successive assignments from a list of key/value pairs,
exactly as a Python dict comprehension or update loop does. -/
def dictOfPairs {α : Type} (ps : List (String × α)) : List (String × α) :=
  ps.foldl (fun d p => dictSet d p.1 p.2) []

/-! ## Research server (src/01_research_server/server.py) -/

/-- One record in a topic's `papers_info.json` cache file, as written by
`search_papers`. -/
structure PaperInfo where
  title : String
  authors : List String
  summary : String
  pdf_url : String
  published : String
  categories : List String
deriving DecidableEq, Repr

/-- Cache effect of `search_papers` (lines 69-89): the topic's cache file is
read (a missing or malformed file reads as `{}`; the read result is the
`cache` argument), every paper returned by the arXiv client is upserted into
it by `papers_info[paper_id] = {...}` in result order, and the whole dict is
written back.  The arXiv results are passed in as the list of
(short id, record) pairs the loop constructs from them. -/
def search_papers_store (cache : List (String × PaperInfo))
    (results : List (String × PaperInfo)) : List (String × PaperInfo) :=
  results.foldl (fun c r => dictSet c r.1 r.2) cache

/-- The list of ids `search_papers` returns (`paper_ids`). -/
def search_papers_ids (results : List (String × PaperInfo)) : List String :=
  results.map Prod.fst

/-- Python `str.split(sep)` for a single-character separator. -/
def pySplit (sep : Char) : List Char → List (List Char)
  | [] => [[]]
  | c :: cs =>
    if c = sep then [] :: pySplit sep cs
    else
      match pySplit sep cs with
      | [] => [[c]]
      | h :: t => (c :: h) :: t

/-- `published.split('-')[0]` from `get_paper_citation` (line 167). -/
def yearOf (published : String) : String :=
  String.mk ((pySplit '-' published.data).headD [])

/-- Citation formatting core of `get_paper_citation` (lines 165-192), applied
to the record found by the cache scan.  `none` models the uncaught
`IndexError` raised by `authors[0]` in the APA branch when the author list is
empty; every other path returns the citation string.  The not-found
`HTTPException` for an uncached id happens before this point and is outside
this function. -/
def get_paper_citation (paper_id : String) (info : PaperInfo) (fmt : String) : Option String :=
  let year := yearOf info.published
  if fmt = "bibtex" then
    some ("@article\x7b" ++ paper_id ++ ",\n  author = \x7b" ++
      String.intercalate " and " info.authors ++ "\x7d,\n  title = \x7b" ++ info.title ++
      "\x7d,\n  journal = \x7barXiv preprint arXiv:" ++ paper_id ++
      "\x7d,\n  year = \x7b" ++ year ++ "\x7d,\n  url = \x7b" ++ info.pdf_url ++
      "\x7d\n\x7d")
  else if fmt = "apa" then
    match info.authors with
    | [] => none
    | [a] => some (a ++ " (" ++ year ++ "). " ++ info.title ++
        ". arXiv preprint arXiv:" ++ paper_id ++ ".")
    | [a, b] => some (a ++ " & " ++ b ++ " (" ++ year ++ "). " ++ info.title ++
        ". arXiv preprint arXiv:" ++ paper_id ++ ".")
    | a :: _ :: _ :: _ => some (a ++ " et al. (" ++ year ++ "). " ++ info.title ++
        ". arXiv preprint arXiv:" ++ paper_id ++ ".")
  else
    let a :=
      match info.authors with
      | [] => "Unknown"
      | x :: _ => x
    some (a ++ " (" ++ year ++ "). " ++ info.title ++ ". arXiv:" ++ paper_id)

/-! ## Data server (src/03_data_server/server.py): CSV/JSON conversion

`csv_to_json` and `json_to_csv` are embedded at the level of parsed tables:
`csv.reader` yields the list of rows (each a list of cell strings) and
`json.dumps`/`json.loads` faithfully transport the list of dicts, so the
repository's own logic is the row/dict transformation modelled here. -/

/-- The key/value pairs enumerated by the dict comprehension on line 133:
`{headers[i]: row[i] if i < len(row) else '' for i in range(len(headers))}`. -/
def pairsOf (headers row : List String) : List (String × String) :=
  (List.range headers.length).map (fun i => (headers.getD i "", row.getD i ""))

/-- One output row of `csv_to_json` with `has_header=True`. -/
def rowDict (headers row : List String) : List (String × String) :=
  dictOfPairs (pairsOf headers row)

/-- One output row of `csv_to_json` with `has_header=False`:
`{"col_" + str(i): val for i, val in enumerate(row)}`. -/
def colDict (row : List String) : List (String × String) :=
  dictOfPairs (row.enum.map (fun p => ("col_" ++ toString p.1, p.2)))

/-- `csv_to_json` (lines 108-141) on the parsed row list. -/
def csv_to_json (rows : List (List String)) (has_header : Bool) :
    Except String (List (List (String × String))) :=
  match rows with
  | [] => Except.error "No data provided"
  | headers :: rest =>
    if has_header then Except.ok (rest.map (rowDict headers))
    else Except.ok ((headers :: rest).map colDict)

/-- `s.add(x)` on a Python set modelled as a duplicate-free list (insertion
order is irrelevant to every property stated below, since the set is sorted
before use). -/
def addNew (acc : List String) (x : String) : List String :=
  if acc.contains x then acc else acc ++ [x]

/-- `s.update(l)` on the same set model. -/
def setAdd (acc : List String) (l : List String) : List String :=
  l.foldl addNew acc

/-- The `keys` set accumulated by `json_to_csv` (lines 163-167). -/
def unionKeys (data : List (List (String × String))) : List String :=
  data.foldl (fun acc item => setAdd acc (dictKeys item)) []

/-- Python `sorted` on strings: lexicographic by code point, which is exactly
Lean's `String` linear order. -/
def pySortedStr (l : List String) : List String :=
  List.insertionSort (fun a b : String => a ≤ b) l

/-- `json_to_csv` (lines 145-182) on the decoded list of dicts: requires a
non-empty list, takes the sorted union of keys as the header, and renders each
dict with `csv.DictWriter` (missing keys become `''`).  The result is the
written table (header, then one cell row per dict). -/
def json_to_csv (data : List (List (String × String))) :
    Except String (List String × List (List String)) :=
  match data with
  | [] => Except.error "Error: JSON must be a non-empty array of objects"
  | _ :: _ =>
    let keys := pySortedStr (unionKeys data)
    Except.ok (keys, data.map (fun item => keys.map (fun k => (dictGet item k).getD "")))

/-! ## Data server: detect_data_type (lines 224-275) -/

/-- The whitespace characters of Python's `str.strip` / regex `\s` that can
occur here (ASCII range; the claims involve no exotic Unicode whitespace). -/
def isPyWS (c : Char) : Bool :=
  c = ' ' || c = '\t' || c = '\n' || c = '\r' || c = '\x0b' || c = '\x0c'

/-- Python `value.strip()`. -/
def pyStrip (l : List Char) : List Char :=
  ((l.dropWhile isPyWS).reverse.dropWhile isPyWS).reverse

/-- ASCII lowercasing, the fragment of Python `str.lower` exercised by the
comparisons against the ASCII boolean literals below. -/
def lowerChar (c : Char) : Char :=
  if 'A' ≤ c && c ≤ 'Z' then Char.ofNat (c.toNat + 32) else c

/-- The boolean-like literals of line 243. -/
def boolLits : List (List Char) :=
  ["true", "false", "yes", "no", "0", "1"].map String.data

/-- Split a character list at the first character satisfying `p`, returning
the parts before and after it. -/
def splitAtFirstP (p : Char → Bool) : List Char → Option (List Char × List Char)
  | [] => none
  | c :: cs =>
    if p c then some ([], cs)
    else
      match splitAtFirstP p cs with
      | none => none
      | some (a, b) => some (c :: a, b)

/-- A digit group of Python's numeric literals: digits with single
underscores allowed only between two digits (PEP 515). -/
def digitsUAux : List Char → Bool
  | [] => true
  | '_' :: c :: cs => c.isDigit && digitsUAux cs
  | '_' :: [] => false
  | c :: cs => c.isDigit && digitsUAux cs

/-- Nonempty digit group with legal underscores. -/
def digitsU : List Char → Bool
  | [] => false
  | c :: cs => c.isDigit && digitsUAux cs

/-- Strip one optional leading sign. -/
def stripSign : List Char → List Char
  | '+' :: cs => cs
  | '-' :: cs => cs
  | cs => cs

/-- The `inf`/`infinity`/`nan` forms accepted by Python `float`
(case-insensitive, after the optional sign). -/
def infNanOk (l : List Char) : Bool :=
  let low := l.map lowerChar
  low = "inf".data || low = "infinity".data || low = "nan".data

/-- Mantissa of a Python float literal: `digits`, `digits.`, `.digits` or
`digits.digits`. -/
def mantissaOk (l : List Char) : Bool :=
  match splitAtFirstP (fun c => c = '.') l with
  | none => digitsU l
  | some (ip, fp) =>
    if fp.contains '.' then false
    else
      match ip, fp with
      | [], [] => false
      | [], _ => digitsU fp
      | _, [] => digitsU ip
      | _, _ => digitsU ip && digitsU fp

/-- Whether Python `float(value)` succeeds on the (already stripped) string:
optional sign, then `inf`/`infinity`/`nan` or a mantissa with an optional
`e`/`E` exponent. -/
def pyFloatOk (l : List Char) : Bool :=
  let b := stripSign l
  infNanOk b ||
    match splitAtFirstP (fun c => c = 'e' || c = 'E') b with
    | none => mantissaOk b
    | some (m, ex) => mantissaOk m && digitsU (stripSign ex)

/-- Whether Python `int(value)` succeeds on the (already stripped) string:
optional sign then a base-10 digit group. -/
def pyIntOk (l : List Char) : Bool :=
  digitsU (stripSign l)

/-- Character class `[a-zA-Z0-9._%+-]` of the email regex's local part. -/
def emailLocalOk (c : Char) : Bool :=
  c.isAlphanum || c = '.' || c = '_' || c = '%' || c = '+' || c = '-'

/-- Character class `[a-zA-Z0-9.-]` of the email regex's domain part. -/
def emailDomainOk (c : Char) : Bool :=
  c.isAlphanum || c = '.' || c = '-'

/-- `re.match(r'^[a-zA-Z0-9._%+-]+@[a-zA-Z0-9.-]+\.[a-zA-Z]{2,}$', value)` on
an already stripped string.  Since `@` is excluded from both sides' character
classes, the regex matches iff the part before the first `@` is a nonempty run
of local-part characters and the part after it splits at its last `.` into a
nonempty run of domain characters and a final run of at least two letters. -/
def emailMatch (l : List Char) : Bool :=
  match splitAtFirstP (fun c => c = '@') l with
  | none => false
  | some (loc, rest) =>
    (!loc.isEmpty) && loc.all emailLocalOk &&
      match splitAtFirstP (fun c => c = '.') rest.reverse with
      | none => false
      | some (revTld, revDom) =>
        let tld := revTld.reverse
        let dom := revDom.reverse
        (!dom.isEmpty) && dom.all emailDomainOk && decide (2 ≤ tld.length) &&
          tld.all Char.isAlpha

/-- `re.match(r'^https?://[^\s]+$', value)` on an already stripped string. -/
def urlMatchSimple (l : List Char) : Bool :=
  if l.take 8 = "https://".data then
    let rest := l.drop 8
    (!rest.isEmpty) && rest.all (fun c => !isPyWS c)
  else if l.take 7 = "http://".data then
    let rest := l.drop 7
    (!rest.isEmpty) && rest.all (fun c => !isPyWS c)
  else
    false

/-- Prefix match of `\d{4}-\d{2}-\d{2}` (no end anchor in the source). -/
def dateYMD : List Char → Bool
  | a :: b :: c :: d :: '-' :: e :: f :: '-' :: g :: h :: _ =>
    a.isDigit && b.isDigit && c.isDigit && d.isDigit && e.isDigit && f.isDigit &&
      g.isDigit && h.isDigit
  | _ => false

/-- Prefix match of `\d{2}/\d{2}/\d{4}`. -/
def dateMDY : List Char → Bool
  | a :: b :: '/' :: c :: d :: '/' :: e :: f :: g :: h :: _ =>
    a.isDigit && b.isDigit && c.isDigit && d.isDigit && e.isDigit && f.isDigit &&
      g.isDigit && h.isDigit
  | _ => false

/-- Prefix match of `\d{2}-\d{2}-\d{4}`. -/
def dateDMY : List Char → Bool
  | a :: b :: '-' :: c :: d :: '-' :: e :: f :: g :: h :: _ =>
    a.isDigit && b.isDigit && c.isDigit && d.isDigit && e.isDigit && f.isDigit &&
      g.isDigit && h.isDigit
  | _ => false

/-- Any of the three date patterns of lines 265-269, tried in order. -/
def dateMatch (l : List Char) : Bool :=
  dateYMD l || dateMDY l || dateDMY l

/-- The detected type labels. -/
inductive DType where
  | empty
  | boolean
  | integer
  | floatT
  | email
  | url
  | date
  | strT
deriving DecidableEq, Repr

/-- The `type`/`confidence` payload of `detect_data_type` (the `value` echo
of the original string or parsed number carries no information used by the
claims and is omitted). -/
structure DetectResult where
  dtype : DType
  confidence : String
deriving DecidableEq, Repr

/-- The email/URL/date/string tail of the cascade, reached either when the
numeric `try` block never ran or when `int(value)` raised `ValueError`. -/
def detectTail (v : List Char) : DetectResult :=
  if emailMatch v then ⟨DType.email, "high"⟩
  else if urlMatchSimple v then ⟨DType.url, "high"⟩
  else if dateMatch v then ⟨DType.date, "medium"⟩
  else ⟨DType.strT, "high"⟩

/-- Core of `detect_data_type` on the stripped character list. -/
def detectCore (v : List Char) : DetectResult :=
  if v = [] then ⟨DType.empty, "high"⟩
  else if boolLits.contains (v.map lowerChar) then ⟨DType.boolean, "medium"⟩
  else if pyFloatOk v then
    if v.contains '.' then ⟨DType.floatT, "high"⟩
    else if pyIntOk v then ⟨DType.integer, "high"⟩
    else detectTail v
  else detectTail v

/-- `detect_data_type` (lines 224-275). -/
def detect_data_type (value : String) : DetectResult :=
  detectCore (pyStrip value.data)

/-! ## Data server: calculate_statistics (lines 324-357)

Inputs are modelled as rationals; the arithmetic in every claim instance is
exact in IEEE doubles as well. -/

/-- The statistics payload. -/
structure Stats where
  count : Nat
  sum : ℚ
  mean : ℚ
  min : ℚ
  max : ℚ
  range : ℚ
  median : ℚ
deriving DecidableEq, Repr

/-- Result of `calculate_statistics`: the statistics dict or the
`{'error': ...}` payload. -/
inductive StatsResult where
  | ok (s : Stats)
  | error (msg : String)
deriving DecidableEq, Repr

/-- Python `sum(numbers)`. -/
def pySum (l : List ℚ) : ℚ :=
  l.foldl (· + ·) 0

/-- Python `min(numbers)` on a nonempty list (head seeded fold). -/
def pyMin (x : ℚ) (xs : List ℚ) : ℚ :=
  xs.foldl min x

/-- Python `max(numbers)` on a nonempty list. -/
def pyMax (x : ℚ) (xs : List ℚ) : ℚ :=
  xs.foldl max x

/-- Python `sorted(numbers)`: a stable sort; insertion sort has the same
result on a list of numbers. -/
def pySortedQ (l : List ℚ) : List ℚ :=
  List.insertionSort (fun a b : ℚ => a ≤ b) l

/-- `calculate_statistics` (lines 324-357). -/
def calculate_statistics (numbers : List ℚ) : StatsResult :=
  match numbers with
  | [] => StatsResult.error "Empty list provided"
  | x :: xs =>
    let l := x :: xs
    let sorted := pySortedQ l
    let n := l.length
    StatsResult.ok
      { count := n
        sum := pySum l
        mean := pySum l / (n : ℚ)
        min := pyMin x xs
        max := pyMax x xs
        range := pyMax x xs - pyMin x xs
        median :=
          if n % 2 = 0 then (sorted.getD (n / 2 - 1) 0 + sorted.getD (n / 2) 0) / 2
          else sorted.getD (n / 2) 0 }

/-! ## Document server (src/02_document_server/server.py): count_pdf_pages -/

/-- `count_pdf_pages` (lines 105-130).  The network fetch plus
`raise_for_status` is the oracle `fetch` (`none` = any requests exception or
an error status); PyPDF2's `PdfReader` plus `len(reader.pages)` is the oracle
`parse` (`none` = an unparsable PDF raising inside the `try`); `hasPyPDF2`
models the conditional import.  Every failure is caught and becomes the
sentinel `-1`; nothing escapes to the caller. -/
def count_pdf_pages {β : Type} (fetch : String → Option β) (hasPyPDF2 : Bool)
    (parse : β → Option Nat) (pdf_url : String) : Int :=
  match fetch pdf_url with
  | none => -1
  | some content =>
    if hasPyPDF2 then
      match parse content with
      | none => -1
      | some n => (n : Int)
    else -1

/-! ## Web server (src/04_web_server/server.py) -/

/-- Outcome of `requests.head` on one URL: a response with a status code, or
any raised exception. -/
inductive HeadOutcome where
  | resp (status : Nat)
  | exc
deriving DecidableEq, Repr

/-- One entry of the list returned by `check_multiple_urls`. -/
structure UrlCheckResult where
  url : String
  accessible : Bool
  status_code : Option Nat
deriving DecidableEq, Repr

/-- `check_multiple_urls` (lines 368-387): iterates over `urls[:50]`, each
URL checked independently; the bare `except` turns any exception into an
inaccessible entry and the loop continues. -/
def check_multiple_urls (env : String → HeadOutcome) (urls : List String) :
    List UrlCheckResult :=
  (urls.take 50).map (fun u =>
    match env u with
    | HeadOutcome.resp s => ⟨u, true, some s⟩
    | HeadOutcome.exc => ⟨u, false, none⟩)

/-- Python `list(set(l))` modelled as first-occurrence de-duplication (CPython
set iteration order is unspecified; every property below is order-free). -/
def pySetList (l : List String) : List String :=
  setAdd [] l

/-- Result of `extract_links`. -/
structure LinksResult where
  url : String
  total_links : Nat
  internal_links : List String
  external_links : List String
deriving DecidableEq, Repr

/-- Classification predicate of line 130: `parsed.netloc == base_domain or
not parsed.netloc`. -/
def isInternal (netlocOf : String → String) (base : String) (a : String) : Bool :=
  netlocOf a = base || netlocOf a = ""

/-- `extract_links` (lines 123-145) after a successful fetch and parse.
`hrefs` is the list of `href` values of the page's anchor elements in document
order (`soup.find_all('a', href=True)`); `resolve` is `urljoin(url, ·)` and
`netlocOf` is `urlparse(·).netloc`, both owned by the Python standard
library. -/
def extract_links (resolve netlocOf : String → String) (url : String)
    (hrefs : List String) : LinksResult :=
  let base := netlocOf url
  let abs := hrefs.map resolve
  let internal := abs.filter (isInternal netlocOf base)
  let external := abs.filter (fun a => !isInternal netlocOf base a)
  { url := url
    total_links := internal.length + external.length
    internal_links := pySetList internal
    external_links := pySetList external }

/-! ## Lemmas on the dict model -/

theorem dictGet_dictSet_self {α : Type} (d : List (String × α)) (k : String) (v : α) :
    dictGet (dictSet d k v) k = some v := by
  induction d with
  | nil => simp [dictSet, dictGet]
  | cons p rest ih =>
    rcases p with ⟨k0, v0⟩
    by_cases h : k0 = k
    · simp [dictSet, dictGet, h]
    · simp [dictSet, dictGet, h, ih]
theorem dictGet_dictSet_ne {α : Type} (d : List (String × α)) (k : String) (v : α)
    (k' : String) (h : k' ≠ k) : dictGet (dictSet d k v) k' = dictGet d k' := by
  induction d with
  | nil =>
    simp only [dictSet, dictGet]
    rw [if_neg (fun hh => h hh.symm)]
  | cons p rest ih =>
    rcases p with ⟨k0, v0⟩
    by_cases hk : k0 = k
    · subst hk
      simp only [dictSet, if_pos rfl, dictGet]
      rw [if_neg (fun hh => h hh.symm), if_neg (fun hh => h hh.symm)]
    · simp only [dictSet, if_neg hk, dictGet]
      by_cases hk' : k0 = k'
      · rw [if_pos hk', if_pos hk']
      · rw [if_neg hk', if_neg hk', ih]

theorem mem_dictKeys_dictSet {α : Type} (d : List (String × α)) (k : String) (v : α)
    (k' : String) : k' ∈ dictKeys (dictSet d k v) ↔ k' = k ∨ k' ∈ dictKeys d := by
  induction d with
  | nil => simp [dictSet, dictKeys]
  | cons p rest ih =>
    rcases p with ⟨k0, v0⟩
    simp only [dictSet]
    by_cases hk : k0 = k
    · subst hk
      rw [if_pos rfl]
      simp only [dictKeys, List.map_cons, List.mem_cons]
      tauto
    · rw [if_neg hk]
      simp only [dictKeys, List.map_cons, List.mem_cons] at ih ⊢
      rw [ih]
      tauto

theorem dictGet_eq_none_iff {α : Type} (d : List (String × α)) (k : String) :
    dictGet d k = none ↔ k ∉ dictKeys d := by
  induction d with
  | nil => simp [dictGet, dictKeys]
  | cons p rest ih =>
    rcases p with ⟨k0, v0⟩
    by_cases hk : k0 = k
    · subst hk
      simp [dictGet, dictKeys]
    · have hne : ¬ k = k0 := fun hh => hk hh.symm
      simp [dictGet, dictKeys, hk, hne, ih]

theorem dictGet_append_some {α : Type} (l1 l2 : List (String × α)) (k : String) (v : α)
    (h : dictGet l1 k = some v) : dictGet (l1 ++ l2) k = some v := by
  induction l1 with
  | nil => simp [dictGet] at h
  | cons p rest ih =>
    rcases p with ⟨k0, v0⟩
    by_cases hk : k0 = k
    · simp only [dictGet, if_pos hk] at h
      simp only [List.cons_append, dictGet, if_pos hk]
      exact h
    · simp only [dictGet, if_neg hk] at h
      simp only [List.cons_append, dictGet, if_neg hk]
      exact ih h

theorem dictGet_append_none {α : Type} (l1 l2 : List (String × α)) (k : String)
    (h : dictGet l1 k = none) : dictGet (l1 ++ l2) k = dictGet l2 k := by
  induction l1 with
  | nil => simp
  | cons p rest ih =>
    rcases p with ⟨k0, v0⟩
    by_cases hk : k0 = k
    · simp [dictGet, hk] at h
    · simp only [dictGet, if_neg hk] at h
      simp only [List.cons_append, dictGet, if_neg hk]
      exact ih h

theorem dictGet_foldl_of_none {α : Type} (ps : List (String × α)) (d : List (String × α))
    (k : String) (h : dictGet ps.reverse k = none) :
    dictGet (ps.foldl (fun d p => dictSet d p.1 p.2) d) k = dictGet d k := by
  induction ps generalizing d with
  | nil => simp [dictGet]
  | cons p rest ih =>
    rcases p with ⟨k0, v0⟩
    simp only [List.reverse_cons] at h
    simp only [List.foldl_cons]
    cases h1 : dictGet rest.reverse k with
    | some w =>
      have h2 := dictGet_append_some rest.reverse [(k0, v0)] k w h1
      rw [h2] at h
      cases h
    | none =>
      have h2 := dictGet_append_none rest.reverse [(k0, v0)] k h1
      rw [h2] at h
      by_cases hk : k0 = k
      · simp [dictGet, hk] at h
      · rw [ih _ h1]
        exact dictGet_dictSet_ne d k0 v0 k (fun hkk => hk hkk.symm)

theorem dictGet_foldl_of_some {α : Type} (ps : List (String × α)) (d : List (String × α))
    (k : String) (v : α) (h : dictGet ps.reverse k = some v) :
    dictGet (ps.foldl (fun d p => dictSet d p.1 p.2) d) k = some v := by
  induction ps generalizing d with
  | nil => simp [dictGet] at h
  | cons p rest ih =>
    rcases p with ⟨k0, v0⟩
    simp only [List.reverse_cons] at h
    simp only [List.foldl_cons]
    cases h1 : dictGet rest.reverse k with
    | some w =>
      have h2 := dictGet_append_some rest.reverse [(k0, v0)] k w h1
      rw [h2] at h
      cases h
      exact ih _ h1
    | none =>
      have h2 := dictGet_append_none rest.reverse [(k0, v0)] k h1
      rw [h2] at h
      by_cases hk : k0 = k
      · subst hk
        simp only [dictGet, if_pos rfl] at h
        rw [dictGet_foldl_of_none rest _ k0 h1, dictGet_dictSet_self d k0 v0]
        exact h
      · simp [dictGet, hk] at h

theorem mem_dictKeys_foldl {α : Type} (ps : List (String × α)) (d : List (String × α))
    (k : String) :
    k ∈ dictKeys (ps.foldl (fun d p => dictSet d p.1 p.2) d) ↔
      k ∈ ps.map Prod.fst ∨ k ∈ dictKeys d := by
  induction ps generalizing d with
  | nil => simp
  | cons p rest ih =>
    rcases p with ⟨k0, v0⟩
    simp only [List.foldl_cons, List.map_cons, List.mem_cons]
    rw [ih]
    rw [mem_dictKeys_dictSet]
    tauto

theorem dictKeys_reverse {α : Type} (l : List (String × α)) :
    dictKeys l.reverse = (dictKeys l).reverse := by
  simp [dictKeys, List.map_reverse]

theorem dictGet_reverse_of_nodup {α : Type} (ps : List (String × α)) (k : String)
    (h : (dictKeys ps).Nodup) : dictGet ps.reverse k = dictGet ps k := by
  induction ps with
  | nil => rfl
  | cons p rest ih =>
    rcases p with ⟨k0, v0⟩
    simp only [dictKeys, List.map_cons, List.nodup_cons] at h
    obtain ⟨hnotin, hnd⟩ := h
    simp only [List.reverse_cons]
    by_cases hk : k0 = k
    · subst hk
      have hnone : dictGet rest.reverse k0 = none := by
        rw [dictGet_eq_none_iff, dictKeys_reverse, List.mem_reverse]
        exact hnotin
      rw [dictGet_append_none _ _ _ hnone]
      simp [dictGet]
    · cases h1 : dictGet rest.reverse k with
      | some w =>
        rw [dictGet_append_some _ _ _ _ h1]
        simp only [dictGet, if_neg hk]
        rw [← ih hnd, h1]
      | none =>
        rw [dictGet_append_none _ _ _ h1]
        simp only [dictGet, if_neg hk]
        rw [← ih hnd, h1]

theorem map_range_succ {β : Type} (f : Nat → β) (n : Nat) :
    (List.range (n + 1)).map f = f 0 :: (List.range n).map (fun i => f (i + 1)) := by
  rw [List.range_succ_eq_map, List.map_cons, List.map_map]
  rfl

theorem getD_tail_eq (row : List String) (i : Nat) (d : String) :
    row.tail.getD i d = row.getD (i + 1) d := by
  cases row with
  | nil => rfl
  | cons r rs => simp [List.getD_cons_succ]

theorem pairsOf_cons (h : String) (hs row : List String) :
    pairsOf (h :: hs) row = (h, row.getD 0 "") :: pairsOf hs row.tail := by
  simp only [pairsOf, List.length_cons, map_range_succ, List.getD_cons_zero,
    List.getD_cons_succ]
  exact congrArg (List.cons _) (List.map_congr_left (fun i _ => by rw [getD_tail_eq]))

theorem map_fst_pairsOf (headers row : List String) :
    (pairsOf headers row).map Prod.fst = headers := by
  induction headers generalizing row with
  | nil => rfl
  | cons h hs ih => rw [pairsOf_cons, List.map_cons, ih]

theorem pairsOf_eq_zip (headers row : List String) (h : row.length = headers.length) :
    pairsOf headers row = headers.zip row := by
  induction headers generalizing row with
  | nil =>
    cases row with
    | nil => rfl
    | cons r rs => simp at h
  | cons hd hs ih =>
    cases row with
    | nil => simp at h
    | cons r rs =>
      rw [pairsOf_cons, List.zip_cons_cons]
      simp only [List.getD_cons_zero, List.tail_cons]
      rw [ih rs (by simpa using h)]

theorem dictGet_pairsOf (headers : List String) (row : List String) (hnd : headers.Nodup)
    (i : Nat) (hi : i < headers.length) :
    dictGet (pairsOf headers row) (headers.get ⟨i, hi⟩) = some (row.getD i "") := by
  induction headers generalizing row i with
  | nil => simp at hi
  | cons h hs ih =>
    rw [pairsOf_cons]
    rw [List.nodup_cons] at hnd
    cases i with
    | zero =>
      simp [dictGet, List.get]
    | succ j =>
      have hj : j < hs.length := by simpa using hi
      have hget : (h :: hs).get ⟨j + 1, hi⟩ = hs.get ⟨j, hj⟩ := rfl
      rw [hget]
      simp only [dictGet]
      have hne : ¬ h = hs.get ⟨j, hj⟩ := by
        intro heq
        exact hnd.1 (heq ▸ List.get_mem hs j hj)
      rw [if_neg hne, ih row.tail hnd.2 j hj, getD_tail_eq]

theorem mem_dictKeys_rowDict (headers row : List String) (k : String) :
    k ∈ dictKeys (rowDict headers row) ↔ k ∈ headers := by
  rw [rowDict, dictOfPairs, mem_dictKeys_foldl, map_fst_pairsOf]
  simp [dictKeys]

theorem nodup_dictKeys_pairsOf (headers row : List String) (hnd : headers.Nodup) :
    (dictKeys (pairsOf headers row)).Nodup := by
  show ((pairsOf headers row).map Prod.fst).Nodup
  rw [map_fst_pairsOf]
  exact hnd

theorem dictGet_rowDict (headers row : List String) (hnd : headers.Nodup)
    (i : Nat) (hi : i < headers.length) :
    dictGet (rowDict headers row) (headers.get ⟨i, hi⟩) = some (row.getD i "") := by
  rw [rowDict, dictOfPairs]
  apply dictGet_foldl_of_some
  rw [dictGet_reverse_of_nodup _ _ (nodup_dictKeys_pairsOf headers row hnd)]
  exact dictGet_pairsOf headers row hnd i hi

theorem dictGet_rowDict_not_mem (headers row : List String) (k : String)
    (hk : k ∉ headers) : dictGet (rowDict headers row) k = none := by
  rw [dictGet_eq_none_iff, mem_dictKeys_rowDict]
  exact hk

theorem mem_addNew (acc : List String) (x a : String) :
    a ∈ addNew acc x ↔ a ∈ acc ∨ a = x := by
  unfold addNew
  by_cases h : acc.contains x
  · rw [if_pos h]
    have hx : x ∈ acc := by simpa using h
    constructor
    · exact Or.inl
    · rintro (ha | rfl)
      · exact ha
      · exact hx
  · rw [if_neg h]
    simp

theorem nodup_addNew (acc : List String) (x : String) (h : acc.Nodup) :
    (addNew acc x).Nodup := by
  unfold addNew
  by_cases hc : acc.contains x
  · rwa [if_pos hc]
  · rw [if_neg hc]
    have hx : x ∉ acc := by
      intro hm
      exact hc (by simpa using hm)
    simp [List.nodup_append, h, hx]

theorem mem_setAdd (l : List String) (acc : List String) (a : String) :
    a ∈ setAdd acc l ↔ a ∈ acc ∨ a ∈ l := by
  induction l generalizing acc with
  | nil => simp [setAdd]
  | cons x xs ih =>
    simp only [setAdd, List.foldl_cons] at ih ⊢
    rw [ih, mem_addNew]
    simp only [List.mem_cons]
    tauto

theorem nodup_setAdd (l : List String) (acc : List String) (h : acc.Nodup) :
    (setAdd acc l).Nodup := by
  induction l generalizing acc with
  | nil => exact h
  | cons x xs ih =>
    simp only [setAdd, List.foldl_cons] at ih ⊢
    exact ih _ (nodup_addNew acc x h)

theorem mem_foldl_setAdd (data : List (List (String × String))) (acc : List String)
    (k : String) :
    k ∈ data.foldl (fun acc item => setAdd acc (dictKeys item)) acc ↔
      k ∈ acc ∨ ∃ item ∈ data, k ∈ dictKeys item := by
  induction data generalizing acc with
  | nil => simp
  | cons item rest ih =>
    simp only [List.foldl_cons]
    rw [ih, mem_setAdd]
    simp only [List.mem_cons]
    constructor
    · rintro ((ha | hi) | ⟨it, hit, hk⟩)
      · exact Or.inl ha
      · exact Or.inr ⟨item, Or.inl rfl, hi⟩
      · exact Or.inr ⟨it, Or.inr hit, hk⟩
    · rintro (ha | ⟨it, (rfl | hit), hk⟩)
      · exact Or.inl (Or.inl ha)
      · exact Or.inl (Or.inr hk)
      · exact Or.inr ⟨it, hit, hk⟩

theorem mem_unionKeys (data : List (List (String × String))) (k : String) :
    k ∈ unionKeys data ↔ ∃ item ∈ data, k ∈ dictKeys item := by
  rw [unionKeys, mem_foldl_setAdd]
  simp

theorem nodup_unionKeys (data : List (List (String × String))) :
    (unionKeys data).Nodup := by
  rw [unionKeys]
  have h : ∀ (ds : List (List (String × String))) (acc : List String), acc.Nodup →
      (ds.foldl (fun acc item => setAdd acc (dictKeys item)) acc).Nodup := by
    intro ds
    induction ds with
    | nil => intro acc h; exact h
    | cons item rest ih =>
      intro acc hacc
      simp only [List.foldl_cons]
      exact ih _ (nodup_setAdd _ _ hacc)
  exact h data [] List.nodup_nil

theorem mem_pySortedStr (l : List String) (a : String) :
    a ∈ pySortedStr l ↔ a ∈ l :=
  (List.perm_insertionSort _ l).mem_iff

theorem nodup_pySortedStr (l : List String) (h : l.Nodup) : (pySortedStr l).Nodup :=
  (List.perm_insertionSort _ l).nodup_iff.mpr h

theorem dictGet_zip_map {α : Type} (l : List String) (f : String → α) (k : String) :
    dictGet (l.zip (l.map f)) k = if k ∈ l then some (f k) else none := by
  induction l with
  | nil => simp [dictGet]
  | cons x xs ih =>
    simp only [List.map_cons, List.zip_cons_cons, dictGet]
    by_cases hx : x = k
    · subst hx
      simp
    · have hne : ¬ k = x := fun hh => hx hh.symm
      rw [if_neg hx]
      have hz : List.zipWith Prod.mk xs (List.map f xs) = xs.zip (List.map f xs) := rfl
      rw [hz, ih]
      simp [List.mem_cons, hne]

theorem dictGet_zip_not_mem {α : Type} (l1 : List String) (l2 : List α) (k : String) :
    k ∉ l1 → dictGet (l1.zip l2) k = none := by
  induction l1 generalizing l2 with
  | nil => intro _; simp [dictGet]
  | cons x xs ih =>
    intro hk
    cases l2 with
    | nil => simp [dictGet]
    | cons y ys =>
      simp only [List.zip_cons_cons, dictGet]
      have hne : ¬ x = k := fun hh => hk (hh ▸ List.mem_cons_self x xs)
      rw [if_neg hne]
      exact ih ys (fun hm => hk (List.mem_cons_of_mem x hm))

theorem pySplit_ne_nil (sep : Char) (l : List Char) : pySplit sep l ≠ [] := by
  cases l with
  | nil => simp [pySplit]
  | cons c cs =>
    simp only [pySplit]
    by_cases h : c = sep
    · rw [if_pos h]
      simp
    · rw [if_neg h]
      cases hp : pySplit sep cs <;> simp

theorem pySplit_headD (sep : Char) (l : List Char) :
    (pySplit sep l).headD [] = l.takeWhile (fun c => decide (c ≠ sep)) := by
  induction l with
  | nil => rfl
  | cons c cs ih =>
    simp only [pySplit]
    by_cases h : c = sep
    · rw [if_pos h]
      subst h
      simp [List.takeWhile_cons]
    · rw [if_neg h]
      cases hp : pySplit sep cs with
      | nil => exact absurd hp (pySplit_ne_nil sep cs)
      | cons hd tl =>
        have hhd : hd = cs.takeWhile (fun c => decide (c ≠ sep)) := by
          rw [hp] at ih
          simpa using ih
        simp [List.takeWhile_cons, h, hhd]

theorem foldl_min_mem (xs : List ℚ) : ∀ (x : ℚ), xs.foldl min x ∈ x :: xs := by
  induction xs with
  | nil => intro x; simp
  | cons y ys ih =>
    intro x
    simp only [List.foldl_cons]
    rcases List.mem_cons.mp (ih (min x y)) with h1 | h2
    · rcases min_choice x y with hc | hc
      · rw [h1, hc]
        exact List.mem_cons_self x (y :: ys)
      · rw [h1, hc]
        exact List.mem_cons_of_mem x (List.mem_cons_self y ys)
    · exact List.mem_cons_of_mem x (List.mem_cons_of_mem y h2)

theorem foldl_min_le (xs : List ℚ) : ∀ (x : ℚ), ∀ y ∈ x :: xs, xs.foldl min x ≤ y := by
  induction xs with
  | nil =>
    intro x y hy
    simp only [List.foldl_nil]
    rcases List.mem_cons.mp hy with rfl | hy2
    · exact le_refl _
    · simp at hy2
  | cons z zs ih =>
    intro x y hy
    simp only [List.foldl_cons]
    have hbase : zs.foldl min (min x z) ≤ min x z :=
      ih (min x z) (min x z) (List.mem_cons_self _ _)
    rcases List.mem_cons.mp hy with rfl | hy2
    · exact le_trans hbase (min_le_left _ _)
    · rcases List.mem_cons.mp hy2 with rfl | hy3
      · exact le_trans hbase (min_le_right _ _)
      · exact ih (min x z) y (List.mem_cons_of_mem _ hy3)

theorem foldl_max_mem (xs : List ℚ) : ∀ (x : ℚ), xs.foldl max x ∈ x :: xs := by
  induction xs with
  | nil => intro x; simp
  | cons y ys ih =>
    intro x
    simp only [List.foldl_cons]
    rcases List.mem_cons.mp (ih (max x y)) with h1 | h2
    · rcases max_choice x y with hc | hc
      · rw [h1, hc]
        exact List.mem_cons_self x (y :: ys)
      · rw [h1, hc]
        exact List.mem_cons_of_mem x (List.mem_cons_self y ys)
    · exact List.mem_cons_of_mem x (List.mem_cons_of_mem y h2)

theorem le_foldl_max (xs : List ℚ) : ∀ (x : ℚ), ∀ y ∈ x :: xs, y ≤ xs.foldl max x := by
  induction xs with
  | nil =>
    intro x y hy
    simp only [List.foldl_nil]
    rcases List.mem_cons.mp hy with rfl | hy2
    · exact le_refl _
    · simp at hy2
  | cons z zs ih =>
    intro x y hy
    simp only [List.foldl_cons]
    have hbase : max x z ≤ zs.foldl max (max x z) :=
      ih (max x z) (max x z) (List.mem_cons_self _ _)
    rcases List.mem_cons.mp hy with rfl | hy2
    · exact le_trans (le_max_left _ _) hbase
    · rcases List.mem_cons.mp hy2 with rfl | hy3
      · exact le_trans (le_max_right _ _) hbase
      · exact ih (max x z) y (List.mem_cons_of_mem _ hy3)

theorem pySum_eq_sum (l : List ℚ) : pySum l = l.sum := by
  rw [pySum, List.sum_eq_foldl]

theorem length_filter_add_length_filter_not {α : Type} (l : List α) (p : α → Bool) :
    (l.filter p).length + (l.filter (fun a => !p a)).length = l.length := by
  induction l with
  | nil => rfl
  | cons x xs ih =>
    cases hp : p x
    · simp [List.filter_cons, hp]
      omega
    · simp [List.filter_cons, hp]
      omega

/-! ## Claim theorems -/

/-- C1: for every topic and every pair of sequential `search_papers` calls on
it, each paper id present in the topic's cache before the second search is
still present afterwards; its record is unchanged unless the second search
returned a paper with the same id, in which case it is overwritten with the
(last) returned record for that id.  Search only upserts and never removes
unrelated ids. -/
theorem c1_search_papers_upsert (c0 r1 r2 : List (String × PaperInfo)) (k : String)
    (hk : k ∈ dictKeys (search_papers_store c0 r1)) :
    k ∈ dictKeys (search_papers_store (search_papers_store c0 r1) r2) ∧
      (k ∉ search_papers_ids r2 →
        dictGet (search_papers_store (search_papers_store c0 r1) r2) k =
          dictGet (search_papers_store c0 r1) k) ∧
      (∀ v, dictGet r2.reverse k = some v →
        dictGet (search_papers_store (search_papers_store c0 r1) r2) k = some v) := by
  refine ⟨?_, ?_, ?_⟩
  · rw [search_papers_store, mem_dictKeys_foldl]
    exact Or.inr hk
  · intro hnot
    rw [search_papers_store]
    apply dictGet_foldl_of_none
    rw [dictGet_eq_none_iff, dictKeys_reverse, List.mem_reverse]
    exact hnot
  · intro v hv
    rw [search_papers_store]
    exact dictGet_foldl_of_some _ _ _ _ hv

/-- Witness for C1: a concrete pair of searches; the id cached by the first
search survives the second search unchanged. -/
theorem c1_search_papers_upsert_witness :
    "p1" ∈ dictKeys (search_papers_store (search_papers_store []
        [("p1", (⟨"t", ["a"], "s", "u", "2020-01-01", ["cs"]⟩ : PaperInfo))])
        [("p2", (⟨"t2", ["b"], "s2", "u2", "2021-01-01", ["m"]⟩ : PaperInfo))]) ∧
      dictGet (search_papers_store (search_papers_store []
        [("p1", (⟨"t", ["a"], "s", "u", "2020-01-01", ["cs"]⟩ : PaperInfo))])
        [("p2", (⟨"t2", ["b"], "s2", "u2", "2021-01-01", ["m"]⟩ : PaperInfo))]) "p1" =
      dictGet (search_papers_store []
        [("p1", (⟨"t", ["a"], "s", "u", "2020-01-01", ["cs"]⟩ : PaperInfo))]) "p1" := by
  have h := c1_search_papers_upsert []
    [("p1", (⟨"t", ["a"], "s", "u", "2020-01-01", ["cs"]⟩ : PaperInfo))]
    [("p2", (⟨"t2", ["b"], "s2", "u2", "2021-01-01", ["m"]⟩ : PaperInfo))]
    "p1" (by decide)
  exact ⟨h.1, h.2.1 (by decide)⟩

/-- C9: with `has_header=true`, `csv_to_json` turns each data row into a
mapping whose key set is exactly the header row's cells; a row longer than the
header has its extra trailing cells dropped (no key beyond the header ever
appears), and a shorter row is padded with empty strings. -/
theorem c9_csv_to_json_row_keys :
    (∀ (headers : List String) (rows : List (List String)),
      csv_to_json (headers :: rows) true = Except.ok (rows.map (rowDict headers))) ∧
    (∀ (headers row : List String) (k : String),
      k ∈ dictKeys (rowDict headers row) ↔ k ∈ headers) ∧
    (∀ (headers row : List String), headers.Nodup → ∀ i (hi : i < headers.length),
      dictGet (rowDict headers row) (headers.get ⟨i, hi⟩) =
        some (if i < row.length then row.getD i "" else "")) := by
  refine ⟨fun headers rows => rfl,
    fun headers row k => mem_dictKeys_rowDict headers row k, ?_⟩
  intro headers row hnd i hi
  rw [dictGet_rowDict headers row hnd i hi]
  congr 1
  by_cases h : i < row.length
  · rw [if_pos h]
  · rw [if_neg h]
    exact List.getD_eq_default row "" (Nat.le_of_not_lt h)

/-- Witness for C9: a two-column header with a one-cell row; the second
column reads back as the empty string. -/
theorem c9_csv_to_json_row_keys_witness :
    dictGet (rowDict ["a", "b"] ["1"]) ((["a", "b"] : List String).get ⟨1, by decide⟩) =
      some (if 1 < (["1"] : List String).length then (["1"] : List String).getD 1 ""
        else "") :=
  c9_csv_to_json_row_keys.2.2 ["a", "b"] ["1"] (by decide) 1 (by decide)

/-- C4: `get_paper_citation` renders the APA author part as the single author
verbatim, two authors joined with an ampersand, or the first author plus
"et al." for three or more; the simple format uses the first author or
"Unknown" for an empty author list; and in every format the year is the
substring of the stored publication date before its first dash. -/
theorem c4_get_paper_citation_formats (paper_id : String) (info : PaperInfo) :
    (yearOf info.published).data =
        info.published.data.takeWhile (fun c => decide (c ≠ '-')) ∧
    (∀ a, info.authors = [a] → get_paper_citation paper_id info "apa" =
      some (a ++ " (" ++ yearOf info.published ++ "). " ++ info.title ++
        ". arXiv preprint arXiv:" ++ paper_id ++ ".")) ∧
    (∀ a b, info.authors = [a, b] → get_paper_citation paper_id info "apa" =
      some (a ++ " & " ++ b ++ " (" ++ yearOf info.published ++ "). " ++ info.title ++
        ". arXiv preprint arXiv:" ++ paper_id ++ ".")) ∧
    (∀ a b c rest, info.authors = a :: b :: c :: rest →
      get_paper_citation paper_id info "apa" =
      some (a ++ " et al. (" ++ yearOf info.published ++ "). " ++ info.title ++
        ". arXiv preprint arXiv:" ++ paper_id ++ ".")) ∧
    (info.authors = [] → get_paper_citation paper_id info "simple" =
      some ("Unknown (" ++ yearOf info.published ++ "). " ++ info.title ++
        ". arXiv:" ++ paper_id)) ∧
    (∀ a rest, info.authors = a :: rest → get_paper_citation paper_id info "simple" =
      some (a ++ " (" ++ yearOf info.published ++ "). " ++ info.title ++
        ". arXiv:" ++ paper_id)) := by
  refine ⟨pySplit_headD '-' info.published.data, ?_, ?_, ?_, ?_, ?_⟩
  · intro a ha
    simp [get_paper_citation, ha]
  · intro a b ha
    simp [get_paper_citation, ha]
  · intro a b c rest ha
    simp [get_paper_citation, ha]
  · intro ha
    simp [get_paper_citation, ha]
  · intro a rest ha
    simp [get_paper_citation, ha]

/-- Witness for C4 at a concrete three-author record. -/
theorem c4_get_paper_citation_formats_witness :
    get_paper_citation "id9" ⟨"T", ["A", "B", "C"], "s", "u", "2023-05-06", []⟩ "apa" =
      some ("A" ++ " et al. (" ++
        yearOf (⟨"T", ["A", "B", "C"], "s", "u", "2023-05-06", []⟩ : PaperInfo).published ++
        "). " ++ "T" ++ ". arXiv preprint arXiv:" ++ "id9" ++ ".") :=
  (c4_get_paper_citation_formats "id9" ⟨"T", ["A", "B", "C"], "s", "u", "2023-05-06", []⟩
    ).2.2.2.1 "A" "B" "C" [] rfl

/-- C8: the APA error branch is reachable: a cached record with an empty
author list makes the APA format raise (the `else` branch indexes
`authors[0]`, modelled as `none`), while the simple format on the same record
returns a citation with author "Unknown". -/
theorem c8_apa_empty_authors_reachable :
    get_paper_citation "id1" ⟨"T", [], "s", "u", "2024-01-02", []⟩ "apa" = none ∧
    get_paper_citation "id1" ⟨"T", [], "s", "u", "2024-01-02", []⟩ "simple" =
      some "Unknown (2024). T. arXiv:id1" := by
  exact ⟨rfl, rfl⟩

/-- C7: in the tool-protocol variant, `count_pdf_pages` returns the sentinel
`-1` on every failure (download error, missing library, unparsable PDF),
never letting an exception escape, and returns the page count on success;
every run is either the sentinel or a non-negative page count. -/
theorem c7_count_pdf_pages_sentinel {β : Type} (fetch : String → Option β)
    (hasPyPDF2 : Bool) (parse : β → Option Nat) (pdf_url : String) :
    (fetch pdf_url = none → count_pdf_pages fetch hasPyPDF2 parse pdf_url = -1) ∧
    (hasPyPDF2 = false → count_pdf_pages fetch hasPyPDF2 parse pdf_url = -1) ∧
    (∀ b, fetch pdf_url = some b → parse b = none →
      count_pdf_pages fetch hasPyPDF2 parse pdf_url = -1) ∧
    (∀ b n, fetch pdf_url = some b → hasPyPDF2 = true → parse b = some n →
      count_pdf_pages fetch hasPyPDF2 parse pdf_url = (n : Int)) ∧
    (count_pdf_pages fetch hasPyPDF2 parse pdf_url = -1 ∨
      ∃ b n, fetch pdf_url = some b ∧ hasPyPDF2 = true ∧ parse b = some n ∧
        count_pdf_pages fetch hasPyPDF2 parse pdf_url = (n : Int) ∧
        0 ≤ (n : Int)) := by
  refine ⟨?_, ?_, ?_, ?_, ?_⟩
  · intro h
    simp [count_pdf_pages, h]
  · intro h
    cases hf : fetch pdf_url <;> simp [count_pdf_pages, hf, h]
  · intro b hb hp
    cases hl : hasPyPDF2 <;> simp [count_pdf_pages, hb, hp, hl]
  · intro b n hb hl hp
    simp [count_pdf_pages, hb, hl, hp]
  · cases hf : fetch pdf_url with
    | none => exact Or.inl (by simp [count_pdf_pages, hf])
    | some b =>
      cases hl : hasPyPDF2 with
      | false => exact Or.inl (by simp [count_pdf_pages, hf, hl])
      | true =>
        cases hp : parse b with
        | none => exact Or.inl (by simp [count_pdf_pages, hf, hl, hp])
        | some n =>
          exact Or.inr ⟨b, n, rfl, rfl, hp, by simp [count_pdf_pages, hf, hl, hp],
            Int.ofNat_nonneg n⟩

/-- Witness for C7: a failing fetch yields the sentinel, and a successful
fetch and parse yields the page count. -/
theorem c7_count_pdf_pages_sentinel_witness :
    count_pdf_pages (fun _ => (none : Option Unit)) true (fun _ => none) "u" = -1 ∧
    count_pdf_pages (fun _ => some ()) true (fun _ => some 7) "u" = (7 : Int) :=
  ⟨(c7_count_pdf_pages_sentinel (fun _ => (none : Option Unit)) true
      (fun _ => none) "u").1 rfl,
    (c7_count_pdf_pages_sentinel (fun _ => some ()) true
      (fun _ => some 7) "u").2.2.2.1 () 7 rfl rfl rfl⟩

/-- C10: `extract_links` reports `total_links` as the number of href-bearing
anchors before de-duplication, while the returned internal and external link
lists are de-duplicated (and partition the resolved links as sets); on a page
repeating a link, `total_links` strictly exceeds the sum of the two list
lengths. -/
theorem c10_extract_links_total_vs_dedup (resolve netlocOf : String → String)
    (url : String) (hrefs : List String) :
    (extract_links resolve netlocOf url hrefs).total_links = hrefs.length ∧
    (extract_links resolve netlocOf url hrefs).internal_links.Nodup ∧
    (extract_links resolve netlocOf url hrefs).external_links.Nodup ∧
    (∀ a, a ∈ (extract_links resolve netlocOf url hrefs).internal_links ↔
      a ∈ (hrefs.map resolve).filter (isInternal netlocOf (netlocOf url))) ∧
    (∀ a, a ∈ (extract_links resolve netlocOf url hrefs).external_links ↔
      a ∈ (hrefs.map resolve).filter (fun a => !isInternal netlocOf (netlocOf url) a)) ∧
    ((extract_links (fun s => s) (fun _ => "") "p" ["a", "a"]).internal_links.length +
        (extract_links (fun s => s) (fun _ => "") "p" ["a", "a"]).external_links.length <
      (extract_links (fun s => s) (fun _ => "") "p" ["a", "a"]).total_links) := by
  refine ⟨?_, ?_, ?_, ?_, ?_, by decide⟩
  · simp only [extract_links]
    rw [length_filter_add_length_filter_not, List.length_map]
  · exact nodup_setAdd _ _ List.nodup_nil
  · exact nodup_setAdd _ _ List.nodup_nil
  · intro a
    simp only [extract_links, pySetList]
    rw [mem_setAdd]
    simp
  · intro a
    simp only [extract_links, pySetList]
    rw [mem_setAdd]
    simp

/-- C6: `check_multiple_urls` processes exactly the first 50 URLs in input
order and ignores the rest; an exception while checking one URL yields an
inaccessible entry for that URL without aborting the batch or raising; a
60-URL input yields exactly 50 results. -/
theorem c6_check_multiple_urls_batch (env : String → HeadOutcome) (urls : List String) :
    (check_multiple_urls env urls).length = min 50 urls.length ∧
    (∀ i, i < (check_multiple_urls env urls).length →
      ((check_multiple_urls env urls).getD i ⟨"", false, none⟩).url = urls.getD i "") ∧
    (∀ i, i < (check_multiple_urls env urls).length →
      env (urls.getD i "") = HeadOutcome.exc →
      (check_multiple_urls env urls).getD i ⟨"", false, none⟩ =
        ⟨urls.getD i "", false, none⟩) ∧
    (∀ i s, i < (check_multiple_urls env urls).length →
      env (urls.getD i "") = HeadOutcome.resp s →
      (check_multiple_urls env urls).getD i ⟨"", false, none⟩ =
        ⟨urls.getD i "", true, some s⟩) ∧
    (check_multiple_urls (fun _ => HeadOutcome.exc) (List.replicate 60 "u")).length
      = 50 := by
  have hlen : (check_multiple_urls env urls).length = min 50 urls.length := by
    simp [check_multiple_urls, List.length_take]
  have hurl : ∀ i, i < (check_multiple_urls env urls).length → i < urls.length := by
    intro i hi
    rw [hlen] at hi
    exact (Nat.lt_min.mp hi).2
  have hcell : ∀ i (hi : i < (check_multiple_urls env urls).length),
      (check_multiple_urls env urls).getD i ⟨"", false, none⟩ =
        match env (urls.getD i "") with
        | HeadOutcome.resp s => ⟨urls.getD i "", true, some s⟩
        | HeadOutcome.exc => ⟨urls.getD i "", false, none⟩ := by
    intro i hi
    have hiu := hurl i hi
    rw [List.getD_eq_getElem _ _ hi]
    simp only [check_multiple_urls, List.getElem_map, List.getElem_take]
    rw [List.getD_eq_getElem urls "" hiu]
  refine ⟨hlen, ?_, ?_, ?_, by simp [check_multiple_urls, List.length_take]⟩
  · intro i hi
    rw [hcell i hi]
    cases env (urls.getD i "") <;> rfl
  · intro i hi hexc
    rw [hcell i hi, hexc]
  · intro i s hi hresp
    rw [hcell i hi, hresp]

/-- Witness for C6: a concrete two-URL batch where every check raises; the
first entry degrades to inaccessible. -/
theorem c6_check_multiple_urls_batch_witness :
    (check_multiple_urls (fun _ => HeadOutcome.exc) ["a", "b"]).getD 0 ⟨"", false, none⟩ =
      ⟨(["a", "b"] : List String).getD 0 "", false, none⟩ :=
  (c6_check_multiple_urls_batch (fun _ => HeadOutcome.exc) ["a", "b"]).2.2.1 0
    (by decide) rfl

/-- C5: `calculate_statistics` returns an error payload (not an exception) on
an empty list; on a non-empty list it returns count, sum, mean, min, max and
range, with the median computed on a sorted copy by the conventional even/odd
rule; in particular on `[1,2,3,4]` it returns mean 2.5, median 2.5, min 1,
max 4, range 3 and count 4. -/
theorem c5_calculate_statistics_fields :
    calculate_statistics [] = StatsResult.error "Empty list provided" ∧
    (∀ (x : ℚ) (xs : List ℚ), ∃ s, calculate_statistics (x :: xs) = StatsResult.ok s ∧
      s.count = (x :: xs).length ∧
      s.sum = (x :: xs).sum ∧
      s.mean = (x :: xs).sum / ((x :: xs).length : ℚ) ∧
      s.min ∈ x :: xs ∧ (∀ y ∈ x :: xs, s.min ≤ y) ∧
      s.max ∈ x :: xs ∧ (∀ y ∈ x :: xs, y ≤ s.max) ∧
      s.range = s.max - s.min ∧
      (pySortedQ (x :: xs)).Perm (x :: xs) ∧
      List.Sorted (· ≤ ·) (pySortedQ (x :: xs)) ∧
      s.median =
        (if (x :: xs).length % 2 = 0 then
          ((pySortedQ (x :: xs)).getD ((x :: xs).length / 2 - 1) 0 +
            (pySortedQ (x :: xs)).getD ((x :: xs).length / 2) 0) / 2
        else (pySortedQ (x :: xs)).getD ((x :: xs).length / 2) 0)) ∧
    calculate_statistics [1, 2, 3, 4] =
      StatsResult.ok ⟨4, 10, 5/2, 1, 4, 3, 5/2⟩ := by
  refine ⟨rfl, ?_, by
    norm_num [calculate_statistics, pySortedQ, pySum, pyMin, pyMax,
      List.insertionSort, List.orderedInsert]⟩
  intro x xs
  refine ⟨_, rfl, rfl, ?_, ?_, foldl_min_mem xs x, foldl_min_le xs x,
    foldl_max_mem xs x, le_foldl_max xs x, rfl,
    List.perm_insertionSort _ _, List.sorted_insertionSort _ _, rfl⟩
  · show pySum (x :: xs) = (x :: xs).sum
    exact pySum_eq_sum (x :: xs)
  · show pySum (x :: xs) / (((x :: xs).length : Nat) : ℚ) =
      (x :: xs).sum / ((x :: xs).length : ℚ)
    rw [pySum_eq_sum]

/-- C3 (amended): `detect_data_type` classifies by the first matching stage of
the fixed cascade empty, boolean literal, numeric, email, URL, date, string —
with the one qualification the code forces: at the numeric stage a value with
no decimal point is classified integer only when `int(value)` also succeeds;
a value accepted by `float` but not by `int` and containing no decimal point
(exponent notation, `inf`, `nan`) falls through to the later stages.  The
quoted examples hold: "42" is integer with high confidence, "42.5" float,
"a@b.com" email, and "" empty. -/
theorem c3_detect_data_type_cascade :
    (∀ s : String, detect_data_type s = detectCore (pyStrip s.data)) ∧
    detectCore [] = ⟨DType.empty, "high"⟩ ∧
    (∀ v : List Char, v ≠ [] → boolLits.contains (v.map lowerChar) = true →
      detectCore v = ⟨DType.boolean, "medium"⟩) ∧
    (∀ v : List Char, v ≠ [] → boolLits.contains (v.map lowerChar) = false →
      pyFloatOk v = true → v.contains '.' = true →
      detectCore v = ⟨DType.floatT, "high"⟩) ∧
    (∀ v : List Char, v ≠ [] → boolLits.contains (v.map lowerChar) = false →
      pyFloatOk v = true → v.contains '.' = false → pyIntOk v = true →
      detectCore v = ⟨DType.integer, "high"⟩) ∧
    (∀ v : List Char, v ≠ [] → boolLits.contains (v.map lowerChar) = false →
      (pyFloatOk v = false ∨ (v.contains '.' = false ∧ pyIntOk v = false)) →
      emailMatch v = true → detectCore v = ⟨DType.email, "high"⟩) ∧
    (∀ v : List Char, v ≠ [] → boolLits.contains (v.map lowerChar) = false →
      (pyFloatOk v = false ∨ (v.contains '.' = false ∧ pyIntOk v = false)) →
      emailMatch v = false → urlMatchSimple v = true →
      detectCore v = ⟨DType.url, "high"⟩) ∧
    (∀ v : List Char, v ≠ [] → boolLits.contains (v.map lowerChar) = false →
      (pyFloatOk v = false ∨ (v.contains '.' = false ∧ pyIntOk v = false)) →
      emailMatch v = false → urlMatchSimple v = false → dateMatch v = true →
      detectCore v = ⟨DType.date, "medium"⟩) ∧
    (∀ v : List Char, v ≠ [] → boolLits.contains (v.map lowerChar) = false →
      (pyFloatOk v = false ∨ (v.contains '.' = false ∧ pyIntOk v = false)) →
      emailMatch v = false → urlMatchSimple v = false → dateMatch v = false →
      detectCore v = ⟨DType.strT, "high"⟩) ∧
    detect_data_type "42" = ⟨DType.integer, "high"⟩ ∧
    detect_data_type "42.5" = ⟨DType.floatT, "high"⟩ ∧
    detect_data_type "a@b.com" = ⟨DType.email, "high"⟩ ∧
    detect_data_type "" = ⟨DType.empty, "high"⟩ := by
  refine ⟨fun s => rfl, rfl, ?_, ?_, ?_, ?_, ?_, ?_, ?_, by decide, by decide,
    by decide, by decide⟩
  · intro v h1 h2
    simp at h2
    simp [detectCore, h1, h2]
  · intro v h1 h2 h3 h4
    simp at h2 h4
    simp [detectCore, h1, h2, h3, h4]
  · intro v h1 h2 h3 h4 h5
    simp at h2 h4
    simp [detectCore, h1, h2, h3, h4, h5]
  · intro v h1 h2 h3 h4
    simp at h2
    rcases h3 with h3 | ⟨h3a, h3b⟩
    · simp [detectCore, detectTail, h1, h2, h3, h4]
    · simp at h3a
      simp [detectCore, detectTail, h1, h2, h3a, h3b, h4]
  · intro v h1 h2 h3 h4 h5
    simp at h2
    rcases h3 with h3 | ⟨h3a, h3b⟩
    · simp [detectCore, detectTail, h1, h2, h3, h4, h5]
    · simp at h3a
      simp [detectCore, detectTail, h1, h2, h3a, h3b, h4, h5]
  · intro v h1 h2 h3 h4 h5 h6
    simp at h2
    rcases h3 with h3 | ⟨h3a, h3b⟩
    · simp [detectCore, detectTail, h1, h2, h3, h4, h5, h6]
    · simp at h3a
      simp [detectCore, detectTail, h1, h2, h3a, h3b, h4, h5, h6]
  · intro v h1 h2 h3 h4 h5 h6
    simp at h2
    rcases h3 with h3 | ⟨h3a, h3b⟩
    · simp [detectCore, detectTail, h1, h2, h3, h4, h5, h6]
    · simp at h3a
      simp [detectCore, detectTail, h1, h2, h3a, h3b, h4, h5, h6]

/-- Witness for C3 at the concrete input "42": the numeric stage classifies
it integer with high confidence. -/
theorem c3_detect_data_type_cascade_witness :
    detectCore ("42".data) = ⟨DType.integer, "high"⟩ :=
  c3_detect_data_type_cascade.2.2.2.2.1 "42".data (by decide) (by decide) (by decide)
    (by decide) (by decide)

/-- Counterexample for C3 as literally stated: "1e5" reaches the numeric
stage (Python `float` accepts it) and has no decimal point, so the claimed
cascade would classify it integer; the code classifies it string, because
`int("1e5")` raises `ValueError` and the value falls through to the later
stages. -/
theorem c3_detect_data_type_counterexample :
    pyStrip ("1e5".data) = "1e5".data ∧
    "1e5".data ≠ [] ∧
    boolLits.contains (("1e5".data).map lowerChar) = false ∧
    pyFloatOk ("1e5".data) = true ∧
    ("1e5".data).contains '.' = false ∧
    detect_data_type "1e5" = ⟨DType.strT, "high"⟩ ∧
    detect_data_type "1e5" ≠ ⟨DType.integer, "high"⟩ := by
  refine ⟨by decide, by decide, by decide, by decide, by decide, by decide, by decide⟩

/-- One row of the CSV/JSON round trip: rendering a `csv_to_json` row dict
through `csv.DictWriter` columns preserves the column-name-to-value mapping of
the original row. -/
theorem round_trip_row (headers row keys2 : List String)
    (hnd : headers.Nodup) (hrlen : row.length = headers.length)
    (hkmem : ∀ k, k ∈ keys2 ↔ k ∈ headers) (k : String) :
    dictGet (keys2.zip (keys2.map (fun k => (dictGet (rowDict headers row) k).getD ""))) k
      = dictGet (headers.zip row) k := by
  rw [dictGet_zip_map]
  by_cases hk : k ∈ headers
  · rw [if_pos ((hkmem k).mpr hk)]
    obtain ⟨⟨j, hj⟩, hget⟩ := List.mem_iff_get.mp hk
    subst hget
    rw [dictGet_rowDict headers row hnd j hj,
      ← pairsOf_eq_zip headers row hrlen, dictGet_pairsOf headers row hnd j hj]
    simp
  · rw [if_neg (fun hmem => hk ((hkmem k).mp hmem)),
      dictGet_zip_not_mem headers row k hk]

/-- C2: for every rectangular CSV table (header plus at least one data row,
all rows the same length, duplicate-free header so each row is a well-defined
column-name-to-value mapping, no header cell containing a comma), applying
`csv_to_json` with `has_header=true` and then `json_to_csv` yields a table
with the same rows in order — each row carrying the same
column-name-to-value mapping — with the columns possibly reordered (the
output header is the sorted key set, which equals the input header as a
set). -/
theorem c2_csv_json_round_trip (headers : List String) (rows : List (List String))
    (hnd : headers.Nodup) (hne : rows ≠ [])
    (hrect : ∀ r ∈ rows, r.length = headers.length)
    (hcomma : ∀ h ∈ headers, ',' ∉ h.data) :
    ∃ keys2 rows2,
      csv_to_json (headers :: rows) true = Except.ok (rows.map (rowDict headers)) ∧
      json_to_csv (rows.map (rowDict headers)) = Except.ok (keys2, rows2) ∧
      rows2.length = rows.length ∧
      (∀ k, k ∈ keys2 ↔ k ∈ headers) ∧
      (∀ i, i < rows.length → ∀ k,
        dictGet (keys2.zip (rows2.getD i [])) k =
          dictGet (headers.zip (rows.getD i [])) k) := by
  obtain ⟨r0, rs, rfl⟩ : ∃ r0 rs, rows = r0 :: rs := by
    cases rows with
    | nil => exact absurd rfl hne
    | cons a b => exact ⟨a, b, rfl⟩
  have hkmem : ∀ k,
      k ∈ pySortedStr (unionKeys ((r0 :: rs).map (rowDict headers))) ↔ k ∈ headers := by
    intro k
    rw [mem_pySortedStr, mem_unionKeys]
    constructor
    · rintro ⟨item, hit, hk⟩
      obtain ⟨r, hr, rfl⟩ := List.mem_map.mp hit
      exact (mem_dictKeys_rowDict headers r k).mp hk
    · intro hk
      exact ⟨rowDict headers r0,
        List.mem_map_of_mem _ (List.mem_cons_self _ _),
        (mem_dictKeys_rowDict headers r0 k).mpr hk⟩
  refine ⟨pySortedStr (unionKeys ((r0 :: rs).map (rowDict headers))),
    ((r0 :: rs).map (rowDict headers)).map (fun item =>
      (pySortedStr (unionKeys ((r0 :: rs).map (rowDict headers)))).map (fun k =>
        (dictGet item k).getD "")),
    rfl, rfl, by simp, hkmem, ?_⟩
  intro i hi k
  have hi3 : i < (((r0 :: rs).map (rowDict headers)).map (fun item =>
      (pySortedStr (unionKeys ((r0 :: rs).map (rowDict headers)))).map (fun k =>
        (dictGet item k).getD ""))).length := by
    simpa using hi
  rw [List.getD_eq_getElem _ _ hi3, List.getElem_map, List.getElem_map,
    List.getD_eq_getElem (r0 :: rs) [] hi]
  exact round_trip_row headers ((r0 :: rs)[i]) _ hnd
    (hrect _ (List.getElem_mem hi)) hkmem k

/-- Witness for C2 at a concrete two-column, one-row table. -/
theorem c2_csv_json_round_trip_witness :
    ∃ keys2 rows2,
      csv_to_json (["a", "b"] :: [["1", "2"]]) true =
        Except.ok ([["1", "2"]].map (rowDict ["a", "b"])) ∧
      json_to_csv ([["1", "2"]].map (rowDict ["a", "b"])) = Except.ok (keys2, rows2) ∧
      rows2.length = [["1", "2"]].length ∧
      (∀ k, k ∈ keys2 ↔ k ∈ (["a", "b"] : List String)) ∧
      (∀ i, i < [["1", "2"]].length → ∀ k,
        dictGet (keys2.zip (rows2.getD i [])) k =
          dictGet ((["a", "b"] : List String).zip ([["1", "2"]].getD i [])) k) :=
  c2_csv_json_round_trip ["a", "b"] [["1", "2"]] (by decide) (by decide)
    (by decide) (by decide)

/-- Witness for C5: the error payload on the empty list and the concrete
`[1,2,3,4]` summary. -/
theorem c5_calculate_statistics_fields_witness :
    calculate_statistics [] = StatsResult.error "Empty list provided" ∧
    calculate_statistics [1, 2, 3, 4] =
      StatsResult.ok ⟨4, 10, 5/2, 1, 4, 3, 5/2⟩ :=
  ⟨c5_calculate_statistics_fields.1, c5_calculate_statistics_fields.2.2⟩

/-- Witness for C10: a concrete two-link page where the anchor count is
reported before de-duplication. -/
theorem c10_extract_links_total_vs_dedup_witness :
    (extract_links (fun s => s) (fun _ => "") "p" ["a", "b"]).total_links = 2 :=
  (c10_extract_links_total_vs_dedup (fun s => s) (fun _ => "") "p" ["a", "b"]).1
